import Mathlib

/-!
Verification of the blocktime-calculator core (Go sources under
`internal/client`, `internal/calculator`, `pkg/types`) against its
natural-language specification.

Shallow embedding conventions:
* Go `float64` values (timestamps in seconds, time deltas, statistics) are
  modelled as exact rationals `ℚ`; floating-point rounding is below the
  abstraction level of the specification.
* Go `int`/`int64` are modelled as `Int` (no arithmetic here ever nears 2^63).
* Fallible Go functions returning `(T, error)` are modelled as `Except E T`
  with a structured error type `E` whose constructors record the data that
  the corresponding `fmt.Errorf` message interpolates.
* The external CometBFT RPC client is modelled as an oracle function
  `getBlock : Int → Except String TmBlock` passed in as a parameter, and
  the nondeterministic completion order of the concurrent fetch goroutines
  in `GetBlockRange` is modelled by an explicit `order : List Int` parameter
  (the order in which the per-height tasks deliver their results).
* `sort.Float64s` (an in-place ascending sort of a `[]float64`) is modelled
  by `sortQ`, an ascending sort of a `List ℚ`.
-/

deriving instance DecidableEq for Except

/-- Ascending sort of a list of rationals; models Go `sort.Float64s`
(calculator.go uses it on freshly copied slices). -/
def sortQ (l : List ℚ) : List ℚ :=
  List.insertionSort (· ≤ ·) l

/-- Model of `percentile` (calculator.go:287-310): linear interpolation between
order statistics at continuous rank `p * (n-1)`.  `sorted[i]` is modelled by
`List.getD` (all indices used by the source are in bounds; the default is never
reached there).  `int(math.Floor ..)` / `int(math.Ceil ..)` become
`Int.floor` / `Int.ceil` followed by `Int.toNat` (the index is nonnegative). -/
def percentile (sorted : List ℚ) (p : ℚ) : ℚ :=
  if sorted.length = 0 then 0
  else if p ≤ 0 then sorted.getD 0 0
  else if 1 ≤ p then sorted.getD (sorted.length - 1) 0
  else
    let index : ℚ := p * ((sorted.length : ℚ) - 1)
    let lower : Int := ⌊index⌋
    let upper : Int := ⌈index⌉
    if lower = upper then sorted.getD lower.toNat 0
    else
      let weight : ℚ := index - (lower : ℚ)
      sorted.getD lower.toNat 0 * (1 - weight) + sorted.getD upper.toNat 0 * weight

/-- The standard median, written from the specification's words ("the middle
element when the length is odd, and the average of the two middle elements when
the length is even"); used only to compare against `percentile s (1/2)`. -/
def standardMedian (s : List ℚ) : ℚ :=
  if s.length % 2 = 1 then s.getD (s.length / 2) 0
  else (s.getD (s.length / 2 - 1) 0 + s.getD (s.length / 2) 0) / 2

/-- Model of `types.CalculatorConfig` (pkg/types); only the fields the core
reads.  `0.95`, `0.05`, `1.5` etc. appear as exact rationals. -/
structure CalculatorConfig where
  sampleSize : Int
  outlierThreshold : ℚ
  confidenceLevel : ℚ
  minSampleSize : Int
  trimPercent : ℚ
  useMedianAbsolute : Bool
deriving DecidableEq

/-- Model of `DefaultConfig` (calculator.go:52-61). -/
def DefaultConfig : CalculatorConfig :=
  { sampleSize := 100
    outlierThreshold := 3/2
    confidenceLevel := 19/20
    minSampleSize := 30
    trimPercent := 1/20
    useMedianAbsolute := true }

/-- Model of `types.Range` (pkg/types). -/
structure Range where
  lower : ℚ := 0
  upper : ℚ := 0
  typical : ℚ := 0
deriving DecidableEq

/-- Model of `types.BlockTimeStats` (pkg/types).  The source stores
`StdDev = math.Sqrt(sumSquaredDiff/n)`; since the square root of a rational is
in general irrational we keep the radicand (the population variance) in
`stdDevSq`.  No claim mentions the standard deviation. -/
structure BlockTimeStats where
  sampleSize : Int := 0
  startHeight : Int := 0
  endHeight : Int := 0
  startTime : ℚ := 0
  endTime : ℚ := 0
  mean : ℚ := 0
  median : ℚ := 0
  stdDevSq : ℚ := 0
  min : ℚ := 0
  max : ℚ := 0
  p25 : ℚ := 0
  p75 : ℚ := 0
  p95 : ℚ := 0
  p99 : ℚ := 0
  outlierCount : Int := 0
  estimatedRange : Range := {}
  confidenceLevel : ℚ := 0
deriving DecidableEq

/-- Model of `calculateStatistics` (calculator.go:215-250): percentiles on a
sorted copy, mean and population variance on the argument order. -/
def calculateStatistics (times : List ℚ) : BlockTimeStats :=
  if times.length = 0 then {}
  else
    let sorted := sortQ times
    let stats : BlockTimeStats :=
      { min := sorted.getD 0 0
        max := sorted.getD (sorted.length - 1) 0
        median := percentile sorted (1/2)
        p25 := percentile sorted (1/4)
        p75 := percentile sorted (3/4)
        p95 := percentile sorted (19/20)
        p99 := percentile sorted (99/100) }
    let mean := times.foldl (· + ·) 0 / (times.length : ℚ)
    let sumSquaredDiff := times.foldl (fun acc v => acc + (v - mean) * (v - mean)) 0
    { stats with mean := mean, stdDevSq := sumSquaredDiff / (times.length : ℚ) }

/-- Model of `removeOutliersIQR` (calculator.go:192-212); `sorted` is already
sorted by every caller.  The per-element if/else accumulation becomes
`filter` / `countP`. -/
def removeOutliersIQR (cfg : CalculatorConfig) (sorted : List ℚ) : List ℚ × Int :=
  let q1 := percentile sorted (1/4)
  let q3 := percentile sorted (3/4)
  let iqr := q3 - q1
  let lowerBound := q1 - cfg.outlierThreshold * iqr
  let upperBound := q3 + cfg.outlierThreshold * iqr
  let cleaned := sorted.filter (fun v => decide (lowerBound ≤ v ∧ v ≤ upperBound))
  (cleaned, (sorted.countP (fun v => !decide (lowerBound ≤ v ∧ v ≤ upperBound)) : Int))

/-- Model of `removeOutliers` (calculator.go:133-189).  Notes kept from the
source: the MAD fallback (`mad = 0`) and the `useMedianAbsolute = false` branch
both return the IQR result directly, skipping the trimming step; the z-score
filter iterates the *original* `times` order; `0.6745` is `6745/10000` and the
threshold `3.5` is `7/2`; `int(float64(len(cleaned)) * trimPercent)` truncates
a nonnegative product, i.e. takes its floor; `cleaned[trimCount :
len(cleaned)-trimCount]` is drop-then-take. -/
def removeOutliers (cfg : CalculatorConfig) (times : List ℚ) : List ℚ × Int :=
  if times.length ≤ 3 then (times, 0)
  else
    let sorted := sortQ times
    if cfg.useMedianAbsolute then
      let median := percentile sorted (1/2)
      let deviations := sortQ (sorted.map (fun v => |v - median|))
      let mad := percentile deviations (1/2)
      if mad = 0 then removeOutliersIQR cfg sorted
      else
        let keep : ℚ → Bool := fun v => decide (|(6745/10000 : ℚ) * (v - median) / mad| ≤ 7/2)
        let cleaned := times.filter keep
        let outlierCount : Int := (times.countP (fun v => !keep v) : Int)
        if cfg.trimPercent > 0 ∧ cleaned.length > 10 then
          let trimCount : Nat := ⌊(cleaned.length : ℚ) * cfg.trimPercent⌋₊
          if trimCount > 0 then
            (((sortQ cleaned).drop trimCount).take (cleaned.length - 2 * trimCount),
              outlierCount + (trimCount : Int) * 2)
          else (cleaned, outlierCount)
        else (cleaned, outlierCount)
    else removeOutliersIQR cfg sorted

/-- Model of `calculateRange` (calculator.go:253-284).  `0.95` is `19/20`;
the final `math.Max(lower, 0)` clamp is `max _ 0`. -/
def calculateRange (cfg : CalculatorConfig) (times : List ℚ) (stats : BlockTimeStats) : Range :=
  if times.length = 0 then {}
  else
    let iqr := stats.p75 - stats.p25
    let lower := max (stats.p25 - (1/2) * iqr) stats.min
    let upper := min (stats.p75 + (1/2) * iqr) stats.p95
    let typical := stats.median
    let lu :=
      if cfg.confidenceLevel < 19/20 then
        let factor := cfg.confidenceLevel / (19/20)
        let rangeWidth := upper - lower
        let adjustment := rangeWidth * (1 - factor) / 2
        (lower + adjustment, upper - adjustment)
      else (lower, upper)
    { lower := max lu.1 0, upper := lu.2, typical := typical }

/-- Model of the height+timestamp part of a CometBFT `tmtypes.Block` as used by
`GetBlockRange` (client.go); hash, proposer and tx data are presentation-only
and not consumed by any statistics. -/
structure TmBlock where
  height : Int
  time : ℚ
deriving DecidableEq, Inhabited

/-- Model of `types.BlockInfo` (pkg/types), restricted to the fields the
statistics pipeline reads: height, timestamp and the derived `BlockTime`
delta in seconds. -/
structure BlockInfo where
  height : Int
  time : ℚ
  blockTime : ℚ := 0
deriving DecidableEq, Inhabited

/-- The contiguous height span `[s, e]` walked by the fetch loop
(client.go:102, `for height := startHeight; height <= endHeight; height++`). -/
def heightRange (s e : Int) : List Int :=
  (List.range (e + 1 - s).toNat).map (fun (i : Nat) => s + (i : Int))

/-- One comparison/swap step of the exchange sort at client.go:152-158:
swap positions `i` and `j` when the height at `i` exceeds the height at `j`.
The result is bundled with the fact that its size is unchanged (needed for
termination of the sorting loops). -/
def tmSwapStep (a : Array TmBlock) (i j : Nat) (hi : i < a.size) (hj : j < a.size) :
    {b : Array TmBlock // b.size = a.size} :=
  if (a[i]).height > (a[j]).height then ⟨a.swap ⟨i, hi⟩ ⟨j, hj⟩, a.size_swap _ _⟩
  else ⟨a, rfl⟩

/-- Inner loop of the exchange sort (client.go:153-157):
`for j := i + 1; j < len(tmBlocks); j++`.  The loop is embedded with explicit
fuel (structural recursion, so that the definition evaluates); the fuel is the
number of remaining iterations `a.size - j`, which the swap step leaves
invariant, so a call with `fuel = a.size - j` runs the loop to its guard. -/
def sortPassInner : Nat → Array TmBlock → Nat → Nat → Array TmBlock
  | 0, a, _, _ => a
  | fuel + 1, a, i, j =>
    if hj : j < a.size then
      if hi : i < a.size then
        sortPassInner fuel (tmSwapStep a i j hi hj).val i (j + 1)
      else a
    else a

/-- Outer loop of the exchange sort (client.go:152):
`for i := 0; i < len(tmBlocks)-1; i++` (`i+1 < size` is the Nat-safe form of
`i < size-1`), with the same fuel embedding; `fuel = a.size - i` suffices. -/
def sortBlocksAux : Nat → Array TmBlock → Nat → Array TmBlock
  | 0, a, _ => a
  | fuel + 1, a, i =>
    if _h : i + 1 < a.size then
      sortBlocksAux fuel (sortPassInner (a.size - (i + 1)) a i (i + 1)) (i + 1)
    else a

/-- The full in-place exchange sort of `tmBlocks` by ascending height
(client.go:151-158), as a function on lists. -/
def sortBlocks (l : List TmBlock) : List TmBlock :=
  (sortBlocksAux l.toArray.size l.toArray 0).toList

/-- Tail of the conversion loop (client.go:161-176) once a previous block is
available: every subsequent `BlockInfo` carries
`BlockTime = time[i] - time[i-1]` seconds. -/
def convertBlocksFrom (prev : TmBlock) : List TmBlock → List BlockInfo
  | [] => []
  | b :: rest =>
    { height := b.height, time := b.time, blockTime := b.time - prev.time }
      :: convertBlocksFrom b rest

/-- Model of the conversion loop (client.go:161-176): the first block keeps the
zero-valued `BlockTime` (`i > 0` guard). -/
def convertBlocks : List TmBlock → List BlockInfo
  | [] => []
  | b :: rest => { height := b.height, time := b.time } :: convertBlocksFrom b rest

/-- Errors of `GetBlockRange` (client.go): `invalidRange s e` stands for
`fmt.Errorf("invalid range: start height %d > end height %d", s, e)` and
`blockFetch h msg` for `fmt.Errorf("failed to get block %d: %w", h, err)`. -/
inductive FetchError where
  | invalidRange (startHeight endHeight : Int)
  | blockFetch (height : Int) (msg : String)
deriving DecidableEq

/-- The single-slot error channel of client.go:99,113-120,137-143: `errChan`
has capacity one and senders drop on a full channel, so after the join the
channel holds the error of the first *failing* task in completion order
(`order`), if any task failed. -/
def firstFetchError (getBlock : Int → Except String TmBlock) (order : List Int) :
    Option FetchError :=
  (order.filterMap (fun h =>
    match getBlock h with
    | .error m => some (FetchError.blockFetch h m)
    | .ok _ => none)).head?

/-- Model of `GetBlockRange` (client.go:88-179).  `getBlock` is the
`ChainQueryService` oracle (`c.client.Block`); `order` is the order in which
the concurrently launched per-height tasks deliver their results, an arbitrary
permutation of `heightRange s e` (claims quantify over it).  After the
semaphore-reacquire barrier the code returns the first buffered error, if any
(no partial results); otherwise it collects the successfully delivered blocks
in completion order, sorts them by height and converts them.  Context
cancellation (checked only at task-admission points in the source) is not
modelled; no claim concerns it. -/
def GetBlockRange (getBlock : Int → Except String TmBlock) (startHeight endHeight : Int)
    (order : List Int) : Except FetchError (List BlockInfo) :=
  if startHeight > endHeight then .error (.invalidRange startHeight endHeight)
  else
    match firstFetchError getBlock order with
    | some e => .error e
    | none =>
      let tmBlocks := order.filterMap (fun h => (getBlock h).toOption)
      .ok (convertBlocks (sortBlocks tmBlocks))

/-- Errors of `CalculateStatsForRange` (calculator.go:81-130), in source order:
`invalidRange` (line 84), `insufficientSampleSize` (line 89, requested range
shorter than `MinSampleSize`), `fetchFailed` (line 95, wraps the client error),
`insufficientValidTimes` (line 108, fewer positive deltas than
`MinSampleSize`). -/
inductive CalcError where
  | invalidRange (startHeight endHeight : Int)
  | insufficientSampleSize (n minSample : Int)
  | fetchFailed (e : FetchError)
  | insufficientValidTimes (n minSample : Int)
deriving DecidableEq

/-- Tail of the delta loop (calculator.go:100-105): successive time differences,
keeping only strictly positive ones. -/
def validDeltasFrom (prev : BlockInfo) : List BlockInfo → List ℚ
  | [] => []
  | b :: rest =>
    let timeDiff := b.time - prev.time
    if timeDiff > 0 then timeDiff :: validDeltasFrom b rest
    else validDeltasFrom b rest

/-- The positive time-delta series of a block sequence (calculator.go:99-105,
`for i := 1; i < len(blocks); i++`). -/
def validDeltas : List BlockInfo → List ℚ
  | [] => []
  | b :: rest => validDeltasFrom b rest

/-- Model of `CalculateStatsForRange` (calculator.go:81-130).  `fetch` is the
`BlockchainClient.GetBlockRange` collaborator.  `blocks[0]` /
`blocks[len(blocks)-1]` are modelled with `headD` / `getLastD` (they are in
bounds whenever the valid-delta check has passed with a positive
`minSampleSize`). -/
def CalculateStatsForRange (cfg : CalculatorConfig)
    (fetch : Int → Int → Except FetchError (List BlockInfo))
    (startHeight endHeight : Int) : Except CalcError BlockTimeStats :=
  if startHeight > endHeight then .error (.invalidRange startHeight endHeight)
  else
    let sampleSize := endHeight - startHeight + 1
    if sampleSize < cfg.minSampleSize then
      .error (.insufficientSampleSize sampleSize cfg.minSampleSize)
    else
      match fetch startHeight endHeight with
      | .error e => .error (.fetchFailed e)
      | .ok blocks =>
        let blockTimes := validDeltas blocks
        if (blockTimes.length : Int) < cfg.minSampleSize then
          .error (.insufficientValidTimes (blockTimes.length : Int) cfg.minSampleSize)
        else
          let cleanedTimes := (removeOutliers cfg blockTimes).1
          let outlierCount := (removeOutliers cfg blockTimes).2
          let stats0 := calculateStatistics cleanedTimes
          let stats1 : BlockTimeStats :=
            { stats0 with
              sampleSize := (blockTimes.length : Int)
              startHeight := startHeight
              endHeight := endHeight
              startTime := (blocks.headD default).time
              endTime := (blocks.getLastD default).time
              outlierCount := outlierCount
              confidenceLevel := cfg.confidenceLevel }
          .ok { stats1 with estimatedRange := calculateRange cfg cleanedTimes stats1 }

/-- Model of `BlockMilestone` (predictor.go:185-190); times in seconds as exact
rationals (Go stores nanosecond `time.Duration`s computed from these values). -/
structure BlockMilestone where
  height : Int
  blocksFromNow : Int
  estimatedTime : ℚ
  duration : ℚ
deriving DecidableEq, Inhabited

/-- Model of `MultiBlockPrediction` (predictor.go:193-199), without the embedded
`BlockTimeStats` pointer (a copy of the `calcStats` oracle result). -/
structure MultiBlockPrediction where
  currentHeight : Int
  currentTime : ℚ
  currentBlockAge : ℚ
  predictions : List BlockMilestone
deriving DecidableEq

/-- Errors of `PredictNextBlocks` (predictor.go:107-158): `invalidCount` is
`fmt.Errorf("count must be positive")`; the others wrap the collaborator
failures of lines 113-128. -/
inductive PredictError where
  | invalidCount
  | currentHeightFailed (msg : String)
  | statsFailed (e : CalcError)
  | currentBlockFailed (msg : String)
deriving DecidableEq

/-- Model of `PredictNextBlocks` (predictor.go:107-158).  The collaborators are
oracles: `getLatestHeight` for `client.GetLatestBlockHeight`, `calcStats` for
`calculator.CalculateStats`, `getBlock` for `client.GetBlockByHeight`; `now` is
the wall-clock instant captured once at line 130.  Each milestone is projected
independently from `now`: `estimatedTime = now + blocksAhead * typical`. -/
def PredictNextBlocks (getLatestHeight : Except String Int)
    (calcStats : Except CalcError BlockTimeStats)
    (getBlock : Int → Except String BlockInfo)
    (now : ℚ) (count : Int) : Except PredictError MultiBlockPrediction :=
  if count ≤ 0 then .error .invalidCount
  else
    match getLatestHeight with
    | .error m => .error (.currentHeightFailed m)
    | .ok currentHeight =>
      match calcStats with
      | .error e => .error (.statsFailed e)
      | .ok stats =>
        match getBlock currentHeight with
        | .error m => .error (.currentBlockFailed m)
        | .ok currentBlock =>
          let blockAge := now - currentBlock.time
          let predictions := (List.range count.toNat).map (fun (i : Nat) =>
            let blocksAhead : Int := Int.ofNat i + 1
            let typicalSeconds := (blocksAhead : ℚ) * stats.estimatedRange.typical
            { height := currentHeight + blocksAhead
              blocksFromNow := blocksAhead
              estimatedTime := now + typicalSeconds
              duration := typicalSeconds : BlockMilestone })
          .ok { currentHeight := currentHeight, currentTime := now,
                currentBlockAge := blockAge, predictions := predictions }

/-! ### Heap-instrumented model for the frame claim

Go slices alias a mutable backing array.  To state that `removeOutliers` and
`calculateStatistics` never write through their argument slice, we re-run the
same code over an explicit store of float64 arrays: `make`/`append`-created
slices become `Heap.alloc`, and each `sort.Float64s(x)` — the only mutating
operation in these functions — becomes a `Heap.write` to the array that `x`
references.  The caller's slice is a reference into the heap; the theorems say
its contents are unchanged by the call. -/

/-- A store of float64 backing arrays, addressed by allocation index. -/
abbrev Heap := List (List ℚ)

/-- Contents of the array referenced by `r`. -/
def Heap.read (h : Heap) (r : Nat) : List ℚ :=
  List.getD h r []

/-- Overwrite the array referenced by `r` (models an in-place
`sort.Float64s`). -/
def Heap.write (h : Heap) (r : Nat) (v : List ℚ) : Heap :=
  List.set h r v

/-- Allocate a fresh backing array holding `v` (models `make` + `copy`, or the
array built by a chain of `append`s onto a nil slice). -/
def Heap.alloc (h : Heap) (v : List ℚ) : Heap × Nat :=
  (h ++ [v], List.length h)

/-- Heap-instrumented `removeOutliersIQR` (calculator.go:192-212): reads the
sorted slice, builds `cleaned` with `make`+`append` (a fresh allocation),
writes nothing. -/
def removeOutliersIQRH (cfg : CalculatorConfig) (h0 : Heap) (sortedR : Nat) :
    Heap × List ℚ × Int :=
  let sorted := h0.read sortedR
  let q1 := percentile sorted (1/4)
  let q3 := percentile sorted (3/4)
  let iqr := q3 - q1
  let lowerBound := q1 - cfg.outlierThreshold * iqr
  let upperBound := q3 + cfg.outlierThreshold * iqr
  let cleaned := sorted.filter (fun v => decide (lowerBound ≤ v ∧ v ≤ upperBound))
  let a1 := h0.alloc cleaned
  (a1.1, (a1.1.read a1.2,
    (sorted.countP (fun v => !decide (lowerBound ≤ v ∧ v ≤ upperBound)) : Int)))

/-- Heap-instrumented `removeOutliers` (calculator.go:133-189).  Mutations, in
source order: `sorted := make; copy; sort.Float64s(sorted)` (alloc + write),
`deviations := make; fill; sort.Float64s(deviations)` (alloc + write),
`cleaned` appended onto a nil slice (alloc), and in the trimming branch
`sort.Float64s(cleaned)` (write) followed by a reslicing.  The `≤ 3` branch
returns the caller's slice itself. -/
def removeOutliersH (cfg : CalculatorConfig) (h0 : Heap) (times : Nat) :
    Heap × List ℚ × Int :=
  let ts := h0.read times
  if ts.length ≤ 3 then (h0, (ts, 0))
  else
    let a1 := h0.alloc ts
    let h1 := a1.1
    let sortedR := a1.2
    let h2 := h1.write sortedR (sortQ (h1.read sortedR))
    let sorted := h2.read sortedR
    if cfg.useMedianAbsolute then
      let median := percentile sorted (1/2)
      let a2 := h2.alloc (sorted.map (fun v => |v - median|))
      let h3 := a2.1
      let devR := a2.2
      let h4 := h3.write devR (sortQ (h3.read devR))
      let mad := percentile (h4.read devR) (1/2)
      if mad = 0 then removeOutliersIQRH cfg h4 sortedR
      else
        let keep : ℚ → Bool := fun v => decide (|(6745/10000 : ℚ) * (v - median) / mad| ≤ 7/2)
        let tsAgain := h4.read times
        let a3 := h4.alloc (tsAgain.filter keep)
        let h5 := a3.1
        let cleanedR := a3.2
        let cleaned := h5.read cleanedR
        let outlierCount : Int := (tsAgain.countP (fun v => !keep v) : Int)
        if cfg.trimPercent > 0 ∧ cleaned.length > 10 then
          let trimCount : Nat := ⌊(cleaned.length : ℚ) * cfg.trimPercent⌋₊
          if trimCount > 0 then
            let h6 := h5.write cleanedR (sortQ (h5.read cleanedR))
            (h6, (((h6.read cleanedR).drop trimCount).take (cleaned.length - 2 * trimCount),
              outlierCount + (trimCount : Int) * 2))
          else (h5, (cleaned, outlierCount))
        else (h5, (cleaned, outlierCount))
    else removeOutliersIQRH cfg h2 sortedR

/-- Heap-instrumented `calculateStatistics` (calculator.go:215-250): the only
mutation is `sort.Float64s` on the freshly allocated copy `sorted`; the mean
and variance loops read the caller's slice. -/
def calculateStatisticsH (h0 : Heap) (times : Nat) : Heap × BlockTimeStats :=
  let ts := h0.read times
  if ts.length = 0 then (h0, {})
  else
    let a1 := h0.alloc ts
    let h1 := a1.1
    let sortedR := a1.2
    let h2 := h1.write sortedR (sortQ (h1.read sortedR))
    let sorted := h2.read sortedR
    let stats : BlockTimeStats :=
      { min := sorted.getD 0 0
        max := sorted.getD (sorted.length - 1) 0
        median := percentile sorted (1/2)
        p25 := percentile sorted (1/4)
        p75 := percentile sorted (3/4)
        p95 := percentile sorted (19/20)
        p99 := percentile sorted (99/100) }
    let tsNow := h2.read times
    let mean := tsNow.foldl (· + ·) 0 / (tsNow.length : ℚ)
    let sumSquaredDiff := tsNow.foldl (fun acc v => acc + (v - mean) * (v - mean)) 0
    (h2, { stats with mean := mean, stdDevSq := sumSquaredDiff / (tsNow.length : ℚ) })

/-! ### Concrete inputs used by witnesses and counterexamples -/

/-- The delta series of the specification's example scenario A. -/
def scenarioDeltas : List ℚ := [5, 5, 6, 6, 6, 7, 7, 100]

/-- The MAD value computed inside `removeOutliers` (calculator.go:148-156) for a
given input series — median of the sorted absolute deviations from the median —
exposed so that claims about it can be stated directly. -/
def madOf (times : List ℚ) : ℚ :=
  percentile (sortQ ((sortQ times).map (fun v => |v - percentile (sortQ times) (1/2)|))) (1/2)

/-- Default configuration with `MinSampleSize` lowered to 4 (a legal
configuration value), used to exercise the sample-size checks on small inputs. -/
def cfgMin4 : CalculatorConfig := { DefaultConfig with minSampleSize := 4 }

/-- Five consecutive blocks whose deltas are `[1, 1, 1, 100]`: four valid
deltas before outlier removal, three after. -/
def blocksGapped : List BlockInfo :=
  [{ height := 1, time := 0 }, { height := 2, time := 1 }, { height := 3, time := 2 },
   { height := 4, time := 3 }, { height := 5, time := 103 }]

/-- Five consecutive blocks sharing one timestamp: every delta is zero, so the
valid (strictly positive) delta series is empty.  On this input the Go code
reaches the `insufficient valid block times` check at calculator.go:107 without
touching any earlier failure or panic path. -/
def blocksFlat : List BlockInfo :=
  [{ height := 1, time := 7 }, { height := 2, time := 7 }, { height := 3, time := 7 },
   { height := 4, time := 7 }, { height := 5, time := 7 }]

/-- Stats oracle result with a typical block time of 6 seconds (scenario C). -/
def statsTypical6 : BlockTimeStats := { estimatedRange := { typical := 6 } }

/-- Block oracle for the predictor witness: every height resolves to a block
minted at 594 seconds. -/
def gbConstBlock : Int → Except String BlockInfo :=
  fun _ => .ok { height := 100, time := 594 }

/-- Chain oracle producing a block at every height, minted at `6 * height`
seconds. -/
def gbSeq : Int → Except String TmBlock :=
  fun h => .ok { height := h, time := (h : ℚ) * 6 }

/-- Chain oracle failing exactly at height 2. -/
def gbFail2 : Int → Except String TmBlock :=
  fun h => if h = 2 then .error "connection refused" else .ok { height := h, time := 0 }

/-- Chain oracle that succeeds at every height, including nonpositive ones. -/
def gbZero : Int → Except String TmBlock :=
  fun _ => .ok { height := 0, time := 0 }

/-- The skewed cleaned series `[1,1,1,1,1,1,5,5,5,5]` (median at the lower
quartile) used to break the range-ordering invariant under aggressive
confidence narrowing. -/
def skewedDeltas : List ℚ := [1, 1, 1, 1, 1, 1, 5, 5, 5, 5]

/-- A legal configuration with `ConfidenceLevel = 0.5 < 0.95`, triggering the
confidence-narrowing adjustment of calculator.go:270-277. -/
def cfgConf50 : CalculatorConfig := { DefaultConfig with confidenceLevel := 1/2 }

/-- `h0.Extends h1`: heap `h1` agrees with `h0` on every array allocated in
`h0` (and is at least as large).  The frame theorems show that the
heap produced by a call extends the heap it was given. -/
def Heap.Extends (h0 h1 : Heap) : Prop :=
  h0.length ≤ h1.length ∧ ∀ r, r < h0.length → h1.read r = h0.read r

/-- The interpolated order statistic of `sorted` at continuous rank `x`
(the body of `percentile` for `0 < p < 1`, as a function of
`x = p * (n-1)`); proof device for the monotonicity lemmas. -/
def interpAt (s : List ℚ) (x : ℚ) : ℚ :=
  if ⌊x⌋ = ⌈x⌉ then s.getD (⌊x⌋).toNat 0
  else s.getD (⌊x⌋).toNat 0 * (1 - (x - (⌊x⌋ : ℚ))) + s.getD (⌈x⌉).toNat 0 * (x - (⌊x⌋ : ℚ))

/-! ## Helper lemmas -/

theorem ceil_as_floor (a : ℚ) : (⌈a⌉ : ℤ) = -⌊-a⌋ := by
  rw [Int.floor_neg]; ring

theorem Heap.read_append_lt (h : Heap) (v : List ℚ) (r : Nat) (hr : r < h.length) :
    Heap.read (h ++ [v]) r = Heap.read h r := by
  unfold Heap.read
  rw [List.getD_eq_getElem?_getD, List.getD_eq_getElem?_getD, List.getElem?_append_left hr]

theorem Heap.read_write_ne (h : Heap) (s : Nat) (v : List ℚ) (r : Nat) (hne : s ≠ r) :
    Heap.read (Heap.write h s v) r = Heap.read h r := by
  unfold Heap.read Heap.write
  rw [List.getD_eq_getElem?_getD, List.getD_eq_getElem?_getD, List.getElem?_set_ne hne]

theorem Heap.extends_refl (h : Heap) : Heap.Extends h h :=
  ⟨le_refl _, fun _ _ => rfl⟩

theorem Heap.extends_trans {h0 h1 h2 : Heap} (e1 : Heap.Extends h0 h1)
    (e2 : Heap.Extends h1 h2) : Heap.Extends h0 h2 :=
  ⟨le_trans e1.1 e2.1, fun r hr => (e2.2 r (lt_of_lt_of_le hr e1.1)).trans (e1.2 r hr)⟩

theorem Heap.extends_append (h : Heap) (v : List ℚ) : Heap.Extends h (h ++ [v]) := by
  refine ⟨by simp, fun r hr => Heap.read_append_lt h v r hr⟩

theorem Heap.extends_write {h0 h1 : Heap} (e : Heap.Extends h0 h1) (s : Nat)
    (hs : h0.length ≤ s) (v : List ℚ) : Heap.Extends h0 (Heap.write h1 s v) := by
  refine ⟨le_trans e.1 (by simp [Heap.write]), fun r hr => ?_⟩
  rw [Heap.read_write_ne h1 s v r (by omega)]
  exact e.2 r hr

theorem Heap.length_write (h : Heap) (s : Nat) (v : List ℚ) :
    (Heap.write h s v).length = h.length := by
  simp [Heap.write]

theorem removeOutliersIQRH_extends (cfg : CalculatorConfig) (h : Heap) (s : Nat) :
    Heap.Extends h (removeOutliersIQRH cfg h s).1 := by
  simp only [removeOutliersIQRH, Heap.alloc]
  exact Heap.extends_append h _

theorem removeOutliersH_extends (cfg : CalculatorConfig) (h : Heap) (times : Nat) :
    Heap.Extends h (removeOutliersH cfg h times).1 := by
  have e2 : Heap.Extends h ((h ++ [h.read times]).write h.length
      (sortQ ((h ++ [h.read times]).read h.length))) :=
    Heap.extends_write (Heap.extends_append h _) h.length (le_refl _) _
  simp only [removeOutliersH, Heap.alloc]
  split_ifs with h1 h2 h3 h4 h5
  · exact Heap.extends_refl h
  · refine Heap.extends_trans ?_ (removeOutliersIQRH_extends cfg _ _)
    refine Heap.extends_write (Heap.extends_trans e2 (Heap.extends_append _ _)) _ ?_ _
    simp only [Heap.length_write, List.length_append, List.length_cons, List.length_nil]
    omega
  · refine Heap.extends_write ?_ _ ?_ _
    · refine Heap.extends_trans ?_ (Heap.extends_append _ _)
      refine Heap.extends_write (Heap.extends_trans e2 (Heap.extends_append _ _)) _ ?_ _
      simp only [Heap.length_write, List.length_append, List.length_cons, List.length_nil]
      omega
    · simp only [Heap.length_write, List.length_append, List.length_cons, List.length_nil]
      omega
  · refine Heap.extends_trans ?_ (Heap.extends_append _ _)
    refine Heap.extends_write (Heap.extends_trans e2 (Heap.extends_append _ _)) _ ?_ _
    simp only [Heap.length_write, List.length_append, List.length_cons, List.length_nil]
    omega
  · refine Heap.extends_trans ?_ (Heap.extends_append _ _)
    refine Heap.extends_write (Heap.extends_trans e2 (Heap.extends_append _ _)) _ ?_ _
    simp only [Heap.length_write, List.length_append, List.length_cons, List.length_nil]
    omega
  · exact Heap.extends_trans e2 (removeOutliersIQRH_extends cfg _ _)

theorem calculateStatisticsH_extends (h : Heap) (times : Nat) :
    Heap.Extends h (calculateStatisticsH h times).1 := by
  simp only [calculateStatisticsH, Heap.alloc]
  split_ifs with h1
  · exact Heap.extends_refl h
  · exact Heap.extends_write (Heap.extends_append h _) h.length (le_refl _) _

/-! ## Claims -/

/-- Claim C8: for every non-empty cleaned delta series and every configuration,
the estimated range produced by `calculateRange` has a nonnegative lower bound
(the final `math.Max(lower, 0)` clamp at calculator.go:280). -/
theorem estimatedRange_lower_nonneg (cfg : CalculatorConfig) (times : List ℚ)
    (stats : BlockTimeStats) (h : times ≠ []) :
    0 ≤ (calculateRange cfg times stats).lower := by
  have hlen : ¬ times.length = 0 := fun h0 => h (List.length_eq_zero.mp h0)
  unfold calculateRange
  rw [if_neg hlen]
  exact le_max_right _ _

/-- Witness for C8 at the concrete series `[1]`. -/
theorem estimatedRange_lower_nonneg_witness :
    ([(1 : ℚ)] ≠ ([] : List ℚ)) ∧ 0 ≤ (calculateRange DefaultConfig [1] {}).lower :=
  ⟨by simp, estimatedRange_lower_nonneg DefaultConfig [1] {} (by simp)⟩

/-- Claim C10: `removeOutliers` and `calculateStatistics` never write through
the caller's slice: every mutation (`sort.Float64s`) happens on a freshly
allocated array, so the contents of the argument array are unchanged by the
call. -/
theorem removeOutliers_calculateStatistics_frame (cfg : CalculatorConfig) (h : Heap)
    (r : Nat) (hr : r < h.length) :
    Heap.read (removeOutliersH cfg h r).1 r = Heap.read h r ∧
    Heap.read (calculateStatisticsH h r).1 r = Heap.read h r :=
  ⟨(removeOutliersH_extends cfg h r).2 r hr, (calculateStatisticsH_extends h r).2 r hr⟩

/-- Witness for C10 on a one-array heap holding scenario A's deltas. -/
theorem removeOutliers_calculateStatistics_frame_witness :
    0 < ([scenarioDeltas] : Heap).length ∧
    (Heap.read (removeOutliersH DefaultConfig [scenarioDeltas] 0).1 0 =
        Heap.read [scenarioDeltas] 0 ∧
      Heap.read (calculateStatisticsH [scenarioDeltas] 0).1 0 =
        Heap.read [scenarioDeltas] 0) :=
  ⟨by simp, removeOutliers_calculateStatistics_frame DefaultConfig [scenarioDeltas] 0 (by simp)⟩

/-- Counterexample to claim C2: `GetBlockRange` performs no `height ≥ 1`
validation.  With `startHeight = endHeight = 0` (both below 1) and an oracle
that succeeds at height 0, the fetch succeeds instead of failing with
`InvalidRange`. -/
theorem invalidRange_low_height_counterexample :
    GetBlockRange gbZero 0 0 [0] = .ok [{ height := 0, time := 0, blockTime := 0 }] := rfl

/-- Claim C2 (amended): for `startHeight > endHeight` both the range fetch and
the stats pipeline fail with `InvalidRange` before consulting the chain oracle
(the result is the same constant for every oracle `gb`, i.e. no network call is
made); heights below 1 are not validated. -/
theorem invalidRange_start_gt_end (gb : Int → Except String TmBlock) (order : List Int)
    (cfg : CalculatorConfig) (s e : Int) (h : s > e) :
    GetBlockRange gb s e order = .error (.invalidRange s e) ∧
    CalculateStatsForRange cfg (fun a b => GetBlockRange gb a b order) s e =
      .error (.invalidRange s e) := by
  constructor
  · unfold GetBlockRange; rw [if_pos h]
  · unfold CalculateStatsForRange; rw [if_pos h]

/-- Witness for C2 (amended) at `start = 5 > 3 = end`. -/
theorem invalidRange_start_gt_end_witness :
    ((5 : Int) > 3) ∧
    (GetBlockRange gbZero 5 3 [] = .error (.invalidRange 5 3) ∧
      CalculateStatsForRange DefaultConfig (fun a b => GetBlockRange gbZero a b []) 5 3 =
        .error (.invalidRange 5 3)) :=
  ⟨by norm_num, invalidRange_start_gt_end gbZero [] DefaultConfig 5 3 (by norm_num)⟩

/-- Counterexample to claim C3: there is no sample-size check *after* outlier
removal.  With `minSampleSize = 4` and deltas `[1,1,1,100]`, the pre-removal
count (4) passes, outlier removal leaves only `[1,1,1]` (3 < 4), yet
`CalculateStatsForRange` still returns a summary. -/
theorem insufficientSample_post_removal_counterexample :
    ((removeOutliers cfgMin4 (validDeltas blocksGapped)).1.length : Int) <
      cfgMin4.minSampleSize ∧
    (CalculateStatsForRange cfgMin4 (fun _ _ => .ok blocksGapped) 1 5).isOk = true := by
  have hdel : validDeltas blocksGapped = [1, 1, 1, 100] := by
    norm_num [blocksGapped, validDeltas, validDeltasFrom]
  have hsort : sortQ [(1:ℚ), 1, 1, 100] = [1, 1, 1, 100] := by
    norm_num [sortQ, List.insertionSort, List.orderedInsert]
  have hmed : percentile [(1:ℚ), 1, 1, 100] (1/2) = 1 := by
    norm_num [percentile, ceil_as_floor] <;> simp <;> norm_num
  have hdev : [(1:ℚ), 1, 1, 100].map (fun v => |v - 1|) = [0, 0, 0, 99] := by
    norm_num [abs]
  have hsortdev : sortQ [(0:ℚ), 0, 0, 99] = [0, 0, 0, 99] := by
    norm_num [sortQ, List.insertionSort, List.orderedInsert]
  have hmad : percentile [(0:ℚ), 0, 0, 99] (1/2) = 0 := by
    norm_num [percentile, ceil_as_floor] <;> simp <;> norm_num
  have hq1 : percentile [(1:ℚ), 1, 1, 100] (1/4) = 1 := by
    norm_num [percentile, ceil_as_floor] <;> simp <;> norm_num
  have hq3 : percentile [(1:ℚ), 1, 1, 100] (3/4) = 103/4 := by
    norm_num [percentile, ceil_as_floor] <;> simp <;> norm_num
  have hro : removeOutliers cfgMin4 [1, 1, 1, 100] = ([1, 1, 1], 1) := by
    simp only [removeOutliers, cfgMin4, DefaultConfig, hsort, hmed, hdev, hsortdev, hmad]
    norm_num [removeOutliersIQR, hq1, hq3, List.filter, List.countP, List.countP.go]
  constructor
  · rw [hdel, hro]; norm_num [cfgMin4, DefaultConfig]
  · simp only [CalculateStatsForRange, hdel]
    norm_num [cfgMin4, DefaultConfig]
    rfl

/-- Claim C3 (amended): whenever the requested range is valid and long enough
(`startHeight ≤ endHeight`, `endHeight - startHeight + 1 ≥ minSampleSize`) and
the fetch succeeds, the stats pipeline fails with the InsufficientSample error
(`insufficient valid block times`, calculator.go:108) — returning no summary —
whenever the count of valid deltas measured *before* outlier removal is below
`minSampleSize`; there is no corresponding check after outlier removal. -/
theorem insufficientValidTimes_fails (cfg : CalculatorConfig)
    (fetch : Int → Int → Except FetchError (List BlockInfo)) (s e : Int)
    (blocks : List BlockInfo) (hse : ¬ s > e) (hss : ¬ e - s + 1 < cfg.minSampleSize)
    (hok : fetch s e = .ok blocks)
    (hlt : ((validDeltas blocks).length : Int) < cfg.minSampleSize) :
    CalculateStatsForRange cfg fetch s e =
      .error (.insufficientValidTimes ((validDeltas blocks).length : Int)
        cfg.minSampleSize) := by
  simp only [CalculateStatsForRange, hok]
  rw [if_neg hse, if_neg hss, if_pos hlt]

/-- Witness for C3 (amended): a five-height range fetch with identical
timestamps has zero valid deltas (fewer than `minSampleSize = 4`) and the
pipeline reports exactly the insufficient-valid-times error. -/
theorem insufficientValidTimes_fails_witness :
    (¬ (1 : Int) > 5) ∧ (¬ (5 : Int) - 1 + 1 < cfgMin4.minSampleSize) ∧
    (((validDeltas blocksFlat).length : Int) < cfgMin4.minSampleSize) ∧
    CalculateStatsForRange cfgMin4 (fun _ _ => .ok blocksFlat) 1 5 =
      .error (.insufficientValidTimes ((validDeltas blocksFlat).length : Int)
        cfgMin4.minSampleSize) :=
  ⟨by norm_num, by norm_num [cfgMin4, DefaultConfig],
    by norm_num [validDeltas, validDeltasFrom, blocksFlat, cfgMin4, DefaultConfig],
    insufficientValidTimes_fails cfgMin4 (fun _ _ => .ok blocksFlat) 1 5 blocksFlat
      (by norm_num) (by norm_num [cfgMin4, DefaultConfig]) rfl
      (by norm_num [validDeltas, validDeltasFrom, blocksFlat, cfgMin4, DefaultConfig])⟩

theorem scnA_sortQ : sortQ [(5:ℚ), 5, 6, 6, 6, 7, 7, 100] = [5, 5, 6, 6, 6, 7, 7, 100] := by
  norm_num [sortQ, List.insertionSort, List.orderedInsert]

theorem scnA_median : percentile [(5:ℚ), 5, 6, 6, 6, 7, 7, 100] (1/2) = 6 := by
  norm_num [percentile, ceil_as_floor] <;> simp <;> norm_num

theorem scnA_deviations :
    [(5:ℚ), 5, 6, 6, 6, 7, 7, 100].map (fun v => |v - 6|) = [1, 1, 0, 0, 0, 1, 1, 94] := by
  norm_num [abs_sub_comm, abs]

theorem scnA_sortQ_deviations : sortQ [(1:ℚ), 1, 0, 0, 0, 1, 1, 94] = [0, 0, 0, 1, 1, 1, 1, 94] := by
  norm_num [sortQ, List.insertionSort, List.orderedInsert]

theorem scnA_mad_value : percentile [(0:ℚ), 0, 0, 1, 1, 1, 1, 94] (1/2) = 1 := by
  norm_num [percentile, ceil_as_floor] <;> simp <;> norm_num

theorem scnA_madOf : madOf scenarioDeltas = 1 := by
  unfold madOf scenarioDeltas
  simp only [scnA_sortQ, scnA_median, scnA_deviations, scnA_sortQ_deviations, scnA_mad_value]

theorem scnA_removeOutliers :
    removeOutliers DefaultConfig scenarioDeltas = ([5, 5, 6, 6, 6, 7, 7], 1) := by
  unfold scenarioDeltas
  simp only [removeOutliers, DefaultConfig, scnA_sortQ, scnA_median, scnA_deviations,
    scnA_sortQ_deviations, scnA_mad_value]
  norm_num [List.filter, List.countP, List.countP.go, abs]

theorem scnA_cleaned_sortQ : sortQ [(5:ℚ), 5, 6, 6, 6, 7, 7] = [5, 5, 6, 6, 6, 7, 7] := by
  norm_num [sortQ, List.insertionSort, List.orderedInsert]

theorem scnA_cleaned_median : percentile [(5:ℚ), 5, 6, 6, 6, 7, 7] (1/2) = 6 := by
  norm_num [percentile, ceil_as_floor] <;> simp <;> norm_num

theorem scnA_stats_median : (calculateStatistics [(5:ℚ), 5, 6, 6, 6, 7, 7]).median = 6 := by
  simp only [calculateStatistics, scnA_cleaned_sortQ]
  norm_num [scnA_cleaned_median]

theorem scnA_stats_mean : (calculateStatistics [(5:ℚ), 5, 6, 6, 6, 7, 7]).mean = 6 := by
  simp only [calculateStatistics, scnA_cleaned_sortQ]
  norm_num [List.foldl]

/-- Counterexample to claim C4: on `[5,5,6,6,6,7,7,100]` under the default MAD
strategy the code computes `MAD = 1` (the sorted deviations are
`[0,0,0,1,1,1,1,94]`, whose median is 1, not 0.5), and the mean of the cleaned
series `[5,5,6,6,6,7,7]` is `42/7 = 6`, not `40/7`. -/
theorem scenarioA_counterexample :
    madOf scenarioDeltas ≠ 1/2 ∧
    (calculateStatistics (removeOutliers DefaultConfig scenarioDeltas).1).mean ≠ 40/7 := by
  constructor
  · rw [scnA_madOf]; norm_num
  · rw [scnA_removeOutliers]
    rw [show ((([(5:ℚ), 5, 6, 6, 6, 7, 7], (1:Int))).1) = [(5:ℚ), 5, 6, 6, 6, 7, 7] from rfl]
    rw [scnA_stats_mean]; norm_num

/-- Claim C4 (amended): for deltas `[5,5,6,6,6,7,7,100]` under the default MAD
strategy, the median is 6 and the MAD is 1 (not 0.5); the modified z-score of
100 is `0.6745*94/1 = 63.403` (not 126.8), which exceeds 3.5, so 100 is
dropped; the cleaned series is `[5,5,6,6,6,7,7]` with `outlierCount = 1`, and
summarizing it gives median 6 and mean 6 (`42/7`, not `40/7`). -/
theorem scenarioA_amended :
    percentile (sortQ scenarioDeltas) (1/2) = 6 ∧
    madOf scenarioDeltas = 1 ∧
    (6745/10000 : ℚ) * (100 - 6) / 1 = 63403/1000 ∧
    ¬ |(6745/10000 : ℚ) * (100 - 6) / 1| ≤ 7/2 ∧
    removeOutliers DefaultConfig scenarioDeltas = ([5, 5, 6, 6, 6, 7, 7], 1) ∧
    (calculateStatistics (removeOutliers DefaultConfig scenarioDeltas).1).median = 6 ∧
    (calculateStatistics (removeOutliers DefaultConfig scenarioDeltas).1).mean = 6 := by
  refine ⟨?_, scnA_madOf, by norm_num,
    by norm_num; rw [abs_of_nonneg (by norm_num : (0:ℚ) ≤ 63403/1000)]; norm_num,
    scnA_removeOutliers, ?_, ?_⟩
  · unfold scenarioDeltas
    rw [scnA_sortQ]; exact scnA_median
  · rw [scnA_removeOutliers]
    rw [show ((([(5:ℚ), 5, 6, 6, 6, 7, 7], (1:Int))).1) = [(5:ℚ), 5, 6, 6, 6, 7, 7] from rfl]
    exact scnA_stats_median
  · rw [scnA_removeOutliers]
    rw [show ((([(5:ℚ), 5, 6, 6, 6, 7, 7], (1:Int))).1) = [(5:ℚ), 5, 6, 6, 6, 7, 7] from rfl]
    exact scnA_stats_mean

/-- Claim C9: `PredictNextBlocks` fails with `InvalidArgument` for
`count ≤ 0`; for `count > 0` it returns exactly `count` milestones, the
`i`-th (0-based) having height `currentHeight + (i+1)` and estimated arrival
`now + (i+1) * typical` seconds — each projected independently from the
captured `now`, not chained off the previous milestone. -/
theorem predictNextBlocks_spec (glh : Except String Int)
    (cs : Except CalcError BlockTimeStats) (gb : Int → Except String BlockInfo)
    (now : ℚ) (count : Int) :
    (count ≤ 0 → PredictNextBlocks glh cs gb now count = .error .invalidCount) ∧
    (∀ H stats blk, glh = .ok H → cs = .ok stats → gb H = .ok blk → ¬ count ≤ 0 →
      ∃ p, PredictNextBlocks glh cs gb now count = .ok p ∧
        p.currentHeight = H ∧ p.currentTime = now ∧
        p.predictions.length = count.toNat ∧
        ∀ i (hi : i < p.predictions.length),
          p.predictions[i].height = H + ((i : Int) + 1) ∧
          p.predictions[i].blocksFromNow = (i : Int) + 1 ∧
          p.predictions[i].estimatedTime =
            now + ((i : ℚ) + 1) * stats.estimatedRange.typical) := by
  constructor
  · intro h; unfold PredictNextBlocks; rw [if_pos h]
  · intro H stats blk hH hcs hgb hcount
    subst hH hcs
    refine ⟨{ currentHeight := H, currentTime := now, currentBlockAge := now - blk.time,
              predictions := (List.range count.toNat).map (fun (i : Nat) =>
                { height := H + (Int.ofNat i + 1), blocksFromNow := Int.ofNat i + 1,
                  estimatedTime := now + ((Int.ofNat i + 1 : Int) : ℚ) * stats.estimatedRange.typical,
                  duration := ((Int.ofNat i + 1 : Int) : ℚ) * stats.estimatedRange.typical }) },
            ?_, rfl, rfl, ?_, ?_⟩
    · unfold PredictNextBlocks
      rw [if_neg hcount]
      simp only [hgb]
    · simp
    · intro i hi
      simp only [List.getElem_map, List.getElem_range]
      refine ⟨rfl, rfl, ?_⟩
      push_cast [Int.ofNat_eq_natCast]
      ring

/-- Witness for C9: scenario C — `predictNext(3)` from height 100 with
`typical = 6` gives milestones at heights 101/102/103 and offsets 6/12/18
seconds from the captured now. -/
theorem predictNextBlocks_spec_witness :
    (¬ (3 : Int) ≤ 0) ∧
    ∃ p, PredictNextBlocks (.ok 100) (.ok statsTypical6) gbConstBlock 0 3 = .ok p ∧
      p.currentHeight = 100 ∧ p.currentTime = 0 ∧
      p.predictions.length = (3 : Int).toNat ∧
      ∀ i (hi : i < p.predictions.length),
        p.predictions[i].height = 100 + ((i : Int) + 1) ∧
        p.predictions[i].blocksFromNow = (i : Int) + 1 ∧
        p.predictions[i].estimatedTime =
          0 + ((i : ℚ) + 1) * statsTypical6.estimatedRange.typical :=
  ⟨by norm_num,
    (predictNextBlocks_spec (.ok 100) (.ok statsTypical6) gbConstBlock 0 3).2
      100 statsTypical6 { height := 100, time := 594 } rfl rfl rfl (by norm_num)⟩

/-- Claim C6: for every sorted non-empty sequence, `percentile s (1/2)` is the
standard median: the middle element for odd length, the average of the two
middle elements for even length. -/
theorem percentile_half_eq_standardMedian (s : List ℚ) (hs : s.Sorted (· ≤ ·))
    (hne : s ≠ []) : percentile s (1/2) = standardMedian s := by
  have hn : 0 < s.length := List.length_pos.mpr hne
  rcases Nat.even_or_odd s.length with he | ho
  · obtain ⟨k, hk⟩ := he
    have hk1 : 1 ≤ k := by omega
    have hidx : (1/2 : ℚ) * ((s.length : ℚ) - 1) = (k : ℚ) - 1/2 := by
      rw [hk]; push_cast; ring
    have hfloor : ⌊(1/2 : ℚ) * ((s.length : ℚ) - 1)⌋ = (k : ℤ) - 1 := by
      rw [hidx, Int.floor_eq_iff]
      constructor
      · push_cast; linarith
      · push_cast; linarith
    have hceil : ⌈(1/2 : ℚ) * ((s.length : ℚ) - 1)⌉ = (k : ℤ) := by
      rw [hidx, Int.ceil_eq_iff]
      constructor
      · push_cast; linarith
      · push_cast; linarith
    have htn1 : ((k : ℤ) - 1).toNat = k - 1 := by omega
    have htn2 : ((k : ℤ)).toNat = k := by omega
    have hdiv : s.length / 2 = k := by omega
    have hmod : ¬ s.length % 2 = 1 := by omega
    unfold percentile standardMedian
    rw [if_neg (by omega), if_neg (by norm_num), if_neg (by norm_num), if_neg hmod]
    simp only [hfloor, hceil]
    rw [if_neg (by omega)]
    rw [htn1, htn2, hdiv, hidx]
    push_cast
    ring
  · obtain ⟨k, hk⟩ := ho
    have hidx : (1/2 : ℚ) * ((s.length : ℚ) - 1) = (k : ℚ) := by
      rw [hk]; push_cast; ring
    have hfloor : ⌊(1/2 : ℚ) * ((s.length : ℚ) - 1)⌋ = (k : ℤ) := by
      rw [hidx, Int.floor_natCast]
    have hceil : ⌈(1/2 : ℚ) * ((s.length : ℚ) - 1)⌉ = (k : ℤ) := by
      rw [hidx, Int.ceil_natCast]
    have htn : ((k : ℤ)).toNat = k := by omega
    have hdiv : s.length / 2 = k := by omega
    have hmod : s.length % 2 = 1 := by omega
    unfold percentile standardMedian
    rw [if_neg (by omega), if_neg (by norm_num), if_neg (by norm_num), if_pos hmod]
    simp only [hfloor, hceil, if_true]
    rw [htn, hdiv]

/-- Witness for C6 at the sorted two-element series `[1, 2]`. -/
theorem percentile_half_eq_standardMedian_witness :
    ([(1:ℚ), 2].Sorted (· ≤ ·)) ∧ percentile [(1:ℚ), 2] (1/2) = standardMedian [(1:ℚ), 2] :=
  ⟨by norm_num [List.sorted_cons],
    percentile_half_eq_standardMedian [(1:ℚ), 2] (by norm_num [List.sorted_cons]) (by simp)⟩

theorem sorted_getD_mono (s : List ℚ) (hs : s.Sorted (· ≤ ·)) {a b : Nat} (hab : a ≤ b)
    (hb : b < s.length) : s.getD a 0 ≤ s.getD b 0 := by
  have ha : a < s.length := lt_of_le_of_lt hab hb
  rw [List.getD_eq_getElem s 0 ha, List.getD_eq_getElem s 0 hb]
  rcases eq_or_lt_of_le hab with h | h
  · subst h; exact le_refl _
  · exact List.pairwise_iff_getElem.mp hs a b ha hb h

theorem interpAt_bounds (s : List ℚ) (hs : s.Sorted (· ≤ ·)) (x : ℚ) (hx0 : 0 ≤ x)
    (hxn : x ≤ (s.length : ℚ) - 1) :
    s.getD (⌊x⌋).toNat 0 ≤ interpAt s x ∧ interpAt s x ≤ s.getD (⌈x⌉).toNat 0 := by
  have hn1 : 1 ≤ s.length := by
    have : (1 : ℚ) ≤ (s.length : ℚ) := by linarith
    exact_mod_cast this
  have hceil_le : ⌈x⌉ ≤ (s.length : ℤ) - 1 := by
    rw [Int.ceil_le]; push_cast; linarith
  have hfl0 : 0 ≤ ⌊x⌋ := Int.floor_nonneg.mpr hx0
  have hflc : ⌊x⌋ ≤ ⌈x⌉ := Int.floor_le_ceil x
  have hceilN : (⌈x⌉).toNat < s.length := by omega
  have hmono : (⌊x⌋).toNat ≤ (⌈x⌉).toNat := by omega
  have hAB : s.getD (⌊x⌋).toNat 0 ≤ s.getD (⌈x⌉).toNat 0 :=
    sorted_getD_mono s hs hmono hceilN
  unfold interpAt
  split_ifs with h
  · exact ⟨le_refl _, by rw [h]⟩
  · have hw0 : 0 ≤ x - (⌊x⌋ : ℚ) := by have := Int.floor_le x; linarith
    have hw1 : x - (⌊x⌋ : ℚ) ≤ 1 := by
      have := Int.lt_floor_add_one x; push_cast at this ⊢; linarith
    constructor
    · nlinarith [mul_nonneg hw0 (sub_nonneg.mpr hAB)]
    · nlinarith [mul_nonneg (sub_nonneg.mpr hw1) (sub_nonneg.mpr hAB)]

theorem interpAt_mono (s : List ℚ) (hs : s.Sorted (· ≤ ·)) (x y : ℚ) (hx0 : 0 ≤ x)
    (hxy : x ≤ y) (hyn : y ≤ (s.length : ℚ) - 1) : interpAt s x ≤ interpAt s y := by
  have hy0 : 0 ≤ y := le_trans hx0 hxy
  have hxn : x ≤ (s.length : ℚ) - 1 := le_trans hxy hyn
  have hn1 : 1 ≤ s.length := by
    have : (1 : ℚ) ≤ (s.length : ℚ) := by linarith
    exact_mod_cast this
  have hfy_le : ⌊y⌋ ≤ (s.length : ℤ) - 1 := by
    have h1 : ⌊y⌋ ≤ ⌊(((s.length : ℤ) - 1 : ℤ) : ℚ)⌋ := by
      apply Int.floor_mono; push_cast; linarith
    rwa [Int.floor_intCast] at h1
  have hfy0 : 0 ≤ ⌊y⌋ := Int.floor_nonneg.mpr hy0
  by_cases hcase : ⌈x⌉ ≤ ⌊y⌋
  · have hcx0 : 0 ≤ ⌈x⌉ := le_trans (Int.floor_nonneg.mpr hx0) (Int.floor_le_ceil x)
    calc interpAt s x ≤ s.getD (⌈x⌉).toNat 0 := (interpAt_bounds s hs x hx0 hxn).2
      _ ≤ s.getD (⌊y⌋).toNat 0 := sorted_getD_mono s hs (by omega) (by omega)
      _ ≤ interpAt s y := (interpAt_bounds s hs y hy0 hyn).1
  · have hfx_le : ⌊x⌋ ≤ ⌊y⌋ := Int.floor_mono hxy
    have h1 : ⌈x⌉ ≤ ⌊x⌋ + 1 := Int.ceil_le_floor_add_one x
    have h2 : ⌊y⌋ < ⌈x⌉ := lt_of_not_le hcase
    have hfloors : ⌊y⌋ = ⌊x⌋ := by omega
    have hxne : ¬ ⌊x⌋ = ⌈x⌉ := by omega
    have hceilx : ⌈x⌉ = ⌊x⌋ + 1 := by
      have := Int.floor_le_ceil x; omega
    by_cases hy_int : ⌊y⌋ = ⌈y⌉
    · have hyx : y ≤ x := by
        have hy_le : y ≤ (⌈y⌉ : ℚ) := Int.le_ceil y
        have hfx : ((⌊x⌋ : ℤ) : ℚ) ≤ x := Int.floor_le x
        rw [← hy_int, hfloors] at hy_le
        linarith
      have : x = y := le_antisymm hxy hyx
      rw [this]
    · have hceily : ⌈y⌉ = ⌊y⌋ + 1 := by
        have := Int.floor_le_ceil y; have := Int.ceil_le_floor_add_one y; omega
      have hfx1_le : (⌊x⌋ + 1).toNat < s.length := by
        have : ⌈x⌉ ≤ (s.length : ℤ) - 1 := by rw [Int.ceil_le]; push_cast; linarith
        omega
      have hfl0 : 0 ≤ ⌊x⌋ := Int.floor_nonneg.mpr hx0
      have hAB : s.getD (⌊x⌋).toNat 0 ≤ s.getD ((⌊x⌋ + 1)).toNat 0 :=
        sorted_getD_mono s hs (by omega) hfx1_le
      unfold interpAt
      rw [if_neg hxne, if_neg hy_int, hfloors, hceily, hfloors, hceilx]
      nlinarith [mul_le_mul_of_nonneg_right hxy
        (sub_nonneg.mpr hAB : (0:ℚ) ≤ s.getD ((⌊x⌋ + 1)).toNat 0 - s.getD (⌊x⌋).toNat 0)]

theorem percentile_eq_interpAt (s : List ℚ) (hn : ¬ s.length = 0) (p : ℚ)
    (hp0 : ¬ p ≤ 0) (hp1 : ¬ 1 ≤ p) :
    percentile s p = interpAt s (p * ((s.length : ℚ) - 1)) := by
  unfold percentile interpAt
  rw [if_neg hn, if_neg hp0, if_neg hp1]

theorem percentile_nonpos (s : List ℚ) (hn : ¬ s.length = 0) (p : ℚ) (hp0 : p ≤ 0) :
    percentile s p = s.getD 0 0 := by
  unfold percentile
  rw [if_neg hn, if_pos hp0]

theorem percentile_ge_one (s : List ℚ) (hn : ¬ s.length = 0) (p : ℚ)
    (hp0 : ¬ p ≤ 0) (hp1 : 1 ≤ p) :
    percentile s p = s.getD (s.length - 1) 0 := by
  unfold percentile
  rw [if_neg hn, if_neg hp0, if_pos hp1]

theorem index_in_range (n : Nat) (hn : 0 < n) (p : ℚ) (hp0 : ¬ p ≤ 0) (hp1 : ¬ 1 ≤ p) :
    0 ≤ p * ((n : ℚ) - 1) ∧ p * ((n : ℚ) - 1) ≤ (n : ℚ) - 1 := by
  have hp0' : 0 < p := lt_of_not_le hp0
  have hp1' : p < 1 := lt_of_not_le hp1
  have hn1 : (1 : ℚ) ≤ (n : ℚ) := by exact_mod_cast hn
  constructor
  · exact mul_nonneg (le_of_lt hp0') (by linarith)
  · nlinarith

theorem floor_index_lt (s : List ℚ) (hn : 0 < s.length) (x : ℚ) (hx0 : 0 ≤ x)
    (hxn : x ≤ (s.length : ℚ) - 1) : (⌊x⌋).toNat < s.length := by
  have h1 : ⌊x⌋ ≤ ⌊(((s.length : ℤ) - 1 : ℤ) : ℚ)⌋ := by
    apply Int.floor_mono; push_cast; linarith
  rw [Int.floor_intCast] at h1
  omega

theorem ceil_index_lt (s : List ℚ) (hn : 0 < s.length) (x : ℚ) (hx0 : 0 ≤ x)
    (hxn : x ≤ (s.length : ℚ) - 1) : (⌈x⌉).toNat < s.length := by
  have h1 : ⌈x⌉ ≤ (s.length : ℤ) - 1 := by
    rw [Int.ceil_le]; push_cast; linarith
  omega

/-- Monotonicity of `percentile` in `p` on sorted input: the linear
interpolation of the empirical CDF is nondecreasing. -/
theorem percentile_le_percentile (s : List ℚ) (hs : s.Sorted (· ≤ ·)) (hne : s ≠ [])
    (p q : ℚ) (hpq : p ≤ q) : percentile s p ≤ percentile s q := by
  have hn : 0 < s.length := List.length_pos.mpr hne
  have hn0 : ¬ s.length = 0 := by omega
  by_cases hq0 : q ≤ 0
  · rw [percentile_nonpos s hn0 p (le_trans hpq hq0), percentile_nonpos s hn0 q hq0]
  · by_cases hp0 : p ≤ 0
    · rw [percentile_nonpos s hn0 p hp0]
      by_cases hq1 : 1 ≤ q
      · rw [percentile_ge_one s hn0 q hq0 hq1]
        exact sorted_getD_mono s hs (Nat.zero_le _) (by omega)
      · rw [percentile_eq_interpAt s hn0 q hq0 hq1]
        obtain ⟨hy0, hyn⟩ := index_in_range s.length hn q hq0 hq1
        calc s.getD 0 0 ≤ s.getD (⌊q * ((s.length : ℚ) - 1)⌋).toNat 0 :=
              sorted_getD_mono s hs (Nat.zero_le _) (floor_index_lt s hn _ hy0 hyn)
          _ ≤ interpAt s (q * ((s.length : ℚ) - 1)) :=
              (interpAt_bounds s hs _ hy0 hyn).1
    · by_cases hp1 : 1 ≤ p
      · rw [percentile_ge_one s hn0 p hp0 hp1,
          percentile_ge_one s hn0 q hq0 (le_trans hp1 hpq)]
      · by_cases hq1 : 1 ≤ q
        · rw [percentile_eq_interpAt s hn0 p hp0 hp1, percentile_ge_one s hn0 q hq0 hq1]
          obtain ⟨hx0, hxn⟩ := index_in_range s.length hn p hp0 hp1
          calc interpAt s (p * ((s.length : ℚ) - 1)) ≤
                s.getD (⌈p * ((s.length : ℚ) - 1)⌉).toNat 0 :=
              (interpAt_bounds s hs _ hx0 hxn).2
            _ ≤ s.getD (s.length - 1) 0 := by
                refine sorted_getD_mono s hs ?_ (by omega)
                have := ceil_index_lt s hn _ hx0 hxn
                omega
        · rw [percentile_eq_interpAt s hn0 p hp0 hp1, percentile_eq_interpAt s hn0 q hq0 hq1]
          obtain ⟨hx0, hxn⟩ := index_in_range s.length hn p hp0 hp1
          obtain ⟨hy0, hyn⟩ := index_in_range s.length hn q hq0 hq1
          refine interpAt_mono s hs _ _ hx0 ?_ hyn
          have hn1 : (1 : ℚ) ≤ (s.length : ℚ) := by exact_mod_cast hn
          exact mul_le_mul_of_nonneg_right hpq (by linarith)

theorem skw_sortQ : sortQ [(1:ℚ), 1, 1, 1, 1, 1, 5, 5, 5, 5] = [1, 1, 1, 1, 1, 1, 5, 5, 5, 5] := by
  norm_num [sortQ, List.insertionSort, List.orderedInsert]

theorem skw_p25 : percentile [(1:ℚ), 1, 1, 1, 1, 1, 5, 5, 5, 5] (1/4) = 1 := by
  norm_num [percentile, ceil_as_floor] <;> simp <;> norm_num

theorem skw_median : percentile [(1:ℚ), 1, 1, 1, 1, 1, 5, 5, 5, 5] (1/2) = 1 := by
  norm_num [percentile, ceil_as_floor] <;> simp <;> norm_num

theorem skw_p75 : percentile [(1:ℚ), 1, 1, 1, 1, 1, 5, 5, 5, 5] (3/4) = 5 := by
  norm_num [percentile, ceil_as_floor] <;> simp <;> norm_num

theorem skw_p95 : percentile [(1:ℚ), 1, 1, 1, 1, 1, 5, 5, 5, 5] (19/20) = 5 := by
  norm_num [percentile, ceil_as_floor] <;> simp <;> norm_num

/-- Counterexample to claim C7: on the cleaned series `[1,1,1,1,1,1,5,5,5,5]`
(p25 = median = 1, p75 = 5) with `confidenceLevel = 0.5`, the narrowing
adjustment `(upper-lower)*(1-0.5/0.95)/2 = 18/19` lifts the lower bound to
`37/19 > 1 = typical`, so `lower ≤ typical` fails. -/
theorem range_ordering_counterexample :
    ¬ ((calculateRange cfgConf50 skewedDeltas (calculateStatistics skewedDeltas)).lower ≤
      (calculateRange cfgConf50 skewedDeltas (calculateStatistics skewedDeltas)).typical) := by
  have h1 : (calculateStatistics skewedDeltas).p25 = 1 := by
    unfold skewedDeltas
    simp only [calculateStatistics, skw_sortQ]
    norm_num [skw_p25]
  have h2 : (calculateStatistics skewedDeltas).median = 1 := by
    unfold skewedDeltas
    simp only [calculateStatistics, skw_sortQ]
    norm_num [skw_median]
  have h3 : (calculateStatistics skewedDeltas).p75 = 5 := by
    unfold skewedDeltas
    simp only [calculateStatistics, skw_sortQ]
    norm_num [skw_p75]
  have h4 : (calculateStatistics skewedDeltas).p95 = 5 := by
    unfold skewedDeltas
    simp only [calculateStatistics, skw_sortQ]
    norm_num [skw_p95]
  have h5 : (calculateStatistics skewedDeltas).min = 1 := by
    unfold skewedDeltas
    simp only [calculateStatistics, skw_sortQ]
    norm_num
  simp only [calculateRange, h1, h2, h3, h4, h5]
  norm_num [skewedDeltas, cfgConf50, DefaultConfig, max_def, min_def]

/-- Claim C7 (amended): whenever `confidenceLevel ≥ 0.95` — so the narrowing
adjustment of calculator.go:270-277 does not fire — the estimated range over
any non-empty series of nonnegative cleaned deltas satisfies
`lower ≤ typical ≤ upper`.  (The counterexample shows the invariant fails for
`confidenceLevel < 0.95`.) -/
theorem range_ordering_high_confidence (cfg : CalculatorConfig) (times : List ℚ)
    (hne : times ≠ []) (hnn : ∀ v ∈ times, 0 ≤ v) (hcl : 19/20 ≤ cfg.confidenceLevel) :
    ((calculateRange cfg times (calculateStatistics times)).lower ≤
      (calculateRange cfg times (calculateStatistics times)).typical) ∧
    ((calculateRange cfg times (calculateStatistics times)).typical ≤
      (calculateRange cfg times (calculateStatistics times)).upper) := by
  have hn0t : ¬ times.length = 0 := fun h => hne (List.length_eq_zero.mp h)
  set c := sortQ times with hc
  have hcs : c.Sorted (· ≤ ·) := List.sorted_insertionSort _ times
  have hperm : c.Perm times := List.perm_insertionSort _ times
  have hlen : c.length = times.length := hperm.length_eq
  have hn0c : ¬ c.length = 0 := by omega
  have hcne : c ≠ [] := fun h => hn0c (by rw [h]; rfl)
  have hhead : 0 ≤ c.getD 0 0 := by
    have hmem : c.getD 0 0 ∈ c := by
      rw [List.getD_eq_getElem c 0 (by omega)]
      exact List.getElem_mem _
    exact hnn _ (hperm.mem_iff.mp hmem)
  have h0eq : percentile c 0 = c.getD 0 0 := percentile_nonpos c hn0c 0 (le_refl 0)
  have h_min_med : c.getD 0 0 ≤ percentile c (1/2) := by
    rw [← h0eq]
    exact percentile_le_percentile c hcs hcne 0 (1/2) (by norm_num)
  have h_25_med : percentile c (1/4) ≤ percentile c (1/2) :=
    percentile_le_percentile c hcs hcne _ _ (by norm_num)
  have h_med_75 : percentile c (1/2) ≤ percentile c (3/4) :=
    percentile_le_percentile c hcs hcne _ _ (by norm_num)
  have h_25_75 : percentile c (1/4) ≤ percentile c (3/4) :=
    percentile_le_percentile c hcs hcne _ _ (by norm_num)
  have h_med_95 : percentile c (1/2) ≤ percentile c (19/20) :=
    percentile_le_percentile c hcs hcne _ _ (by norm_num)
  have h0med : 0 ≤ percentile c (1/2) := le_trans hhead h_min_med
  unfold calculateRange calculateStatistics
  simp only [if_neg hn0t, if_neg (not_lt.mpr hcl), ← hc]
  constructor
  · exact max_le (max_le (by linarith) h_min_med) h0med
  · exact le_min (by linarith) h_med_95

/-- Witness for C7 (amended) at the one-element series `[1]` under the default
configuration. -/
theorem range_ordering_high_confidence_witness :
    (([(1:ℚ)] : List ℚ) ≠ []) ∧ (19/20 : ℚ) ≤ DefaultConfig.confidenceLevel ∧
    (((calculateRange DefaultConfig [1] (calculateStatistics [1])).lower ≤
        (calculateRange DefaultConfig [1] (calculateStatistics [1])).typical) ∧
      ((calculateRange DefaultConfig [1] (calculateStatistics [1])).typical ≤
        (calculateRange DefaultConfig [1] (calculateStatistics [1])).upper)) :=
  ⟨by simp, by norm_num [DefaultConfig],
    range_ordering_high_confidence DefaultConfig [1] (by simp) (by norm_num)
      (by norm_num [DefaultConfig])⟩

theorem perm_set_set (l : List TmBlock) (i j : Nat) (hi : i < l.length) (hj : j < l.length) :
    ((l.set i l[j]).set j l[i]).Perm l := by
  rw [List.perm_iff_count]
  intro b
  have hj2 : j < (l.set i l[j]).length := by simpa using hj
  have hgetj : (l.set i l[j])[j] = l[j] := by
    rw [List.getElem_set]
    split <;> rfl
  rw [List.count_set l[i] b (l.set i l[j]) j hj2, List.count_set l[j] b l i hi, hgetj]
  have hA : (if (l[i] == b) = true then 1 else 0) ≤ l.count b := by
    split_ifs with h
    · exact List.count_pos_iff.mpr ((beq_iff_eq.mp h) ▸ List.getElem_mem hi)
    · exact Nat.zero_le _
  omega

theorem tmSwapStep_le (a : Array TmBlock) (i j : Nat) (hi : i < a.size) (hj : j < a.size)
    (hi2 : i < (tmSwapStep a i j hi hj).val.size) (hj2 : j < (tmSwapStep a i j hi hj).val.size) :
    ((tmSwapStep a i j hi hj).val[i]).height ≤ ((tmSwapStep a i j hi hj).val[j]).height := by
  unfold tmSwapStep at hi2 hj2 ⊢
  split_ifs at hi2 hj2 ⊢ with h
  · by_cases hij : j = i
    · subst hij
      exact le_refl _
    · simp only [Array.getElem_swap, if_true, Array.get_eq_getElem]
      rw [if_neg hij]
      exact le_of_lt h
  · exact le_of_not_lt h

theorem tmSwapStep_frame (a : Array TmBlock) (i j : Nat) (hi : i < a.size) (hj : j < a.size)
    (k : Nat) (hk : k < (tmSwapStep a i j hi hj).val.size) (hk0 : k < a.size)
    (hki : k ≠ i) (hkj : k ≠ j) :
    (tmSwapStep a i j hi hj).val[k] = a[k] := by
  unfold tmSwapStep at hk ⊢
  split_ifs at hk ⊢ with h
  · simp only [Array.getElem_swap]
    rw [if_neg hki, if_neg hkj]
  · rfl

theorem tmSwapStep_dec (a : Array TmBlock) (i j : Nat) (hi : i < a.size) (hj : j < a.size)
    (hi2 : i < (tmSwapStep a i j hi hj).val.size) :
    ((tmSwapStep a i j hi hj).val[i]).height ≤ (a[i]).height := by
  unfold tmSwapStep at hi2 ⊢
  split_ifs at hi2 ⊢ with h
  · simp only [Array.getElem_swap, if_true, Array.get_eq_getElem]
    exact le_of_lt h
  · exact le_refl _

theorem tmSwapStep_source (a : Array TmBlock) (i j : Nat) (hi : i < a.size) (hj : j < a.size)
    (k : Nat) (hk : k < (tmSwapStep a i j hi hj).val.size) (hk0 : k < a.size) :
    (tmSwapStep a i j hi hj).val[k] = a[i] ∨ (tmSwapStep a i j hi hj).val[k] = a[j] ∨
      (tmSwapStep a i j hi hj).val[k] = a[k] := by
  unfold tmSwapStep at hk ⊢
  split_ifs at hk ⊢ with h
  · simp only [Array.getElem_swap]
    split_ifs with e1 e2
    · exact Or.inr (Or.inl rfl)
    · exact Or.inl rfl
    · exact Or.inr (Or.inr rfl)
  · exact Or.inr (Or.inr rfl)

theorem tmSwapStep_perm (a : Array TmBlock) (i j : Nat) (hi : i < a.size) (hj : j < a.size) :
    (tmSwapStep a i j hi hj).val.toList.Perm a.toList := by
  unfold tmSwapStep
  split_ifs with h
  · rw [Array.toList_swap]
    have hi' : i < a.toList.length := by simpa using hi
    have hj' : j < a.toList.length := by simpa using hj
    have hgi : a.get ⟨i, hi⟩ = a.toList[i] := (Array.getElem_toList hi).symm
    have hgj : a.get ⟨j, hj⟩ = a.toList[j] := (Array.getElem_toList hj).symm
    rw [hgi, hgj]
    exact perm_set_set a.toList i j hi' hj'
  · exact List.Perm.refl _

theorem sortPassInner_size (fuel : Nat) (a : Array TmBlock) (i j : Nat) :
    (sortPassInner fuel a i j).size = a.size := by
  induction fuel generalizing a j with
  | zero => rfl
  | succ f ih =>
    simp only [sortPassInner]
    split_ifs with hj hi
    · rw [ih]; exact (tmSwapStep a i j hi hj).property
    · rfl
    · rfl

theorem sortPassInner_perm (fuel : Nat) (a : Array TmBlock) (i j : Nat) :
    (sortPassInner fuel a i j).toList.Perm a.toList := by
  induction fuel generalizing a j with
  | zero => exact List.Perm.refl _
  | succ f ih =>
    simp only [sortPassInner]
    split_ifs with hj hi
    · exact List.Perm.trans (ih _ _) (tmSwapStep_perm a i j hi hj)
    · exact List.Perm.refl _
    · exact List.Perm.refl _

theorem sortPassInner_frame (fuel : Nat) (a : Array TmBlock) (i j : Nat) (k : Nat)
    (hk : k < (sortPassInner fuel a i j).size) (hk0 : k < a.size)
    (hki : k ≠ i) (hkj : k < j) :
    (sortPassInner fuel a i j)[k] = a[k] := by
  induction fuel generalizing a j with
  | zero => rfl
  | succ f ih =>
    simp only [sortPassInner] at hk ⊢
    split_ifs at hk ⊢ with hj hi
    · have hstep : k < (tmSwapStep a i j hi hj).val.size := by
        rw [(tmSwapStep a i j hi hj).property]; exact hk0
      rw [ih (tmSwapStep a i j hi hj).val (j + 1) (by rwa [sortPassInner_size] at hk ⊢) hstep
        (Nat.lt_succ_of_lt hkj)]
      exact tmSwapStep_frame a i j hi hj k hstep hk0 hki (Nat.ne_of_lt hkj)
    · rfl
    · rfl

theorem sortPassInner_dec (fuel : Nat) (a : Array TmBlock) (i j : Nat)
    (hi : i < a.size) (hi2 : i < (sortPassInner fuel a i j).size) :
    ((sortPassInner fuel a i j)[i]).height ≤ (a[i]).height := by
  induction fuel generalizing a j with
  | zero => exact le_refl _
  | succ f ih =>
    simp only [sortPassInner] at hi2 ⊢
    split_ifs at hi2 ⊢ with hj
    · have hstep : i < (tmSwapStep a i j hi hj).val.size := by
        rw [(tmSwapStep a i j hi hj).property]; exact hi
      exact le_trans (ih (tmSwapStep a i j hi hj).val (j + 1) hstep hi2)
        (tmSwapStep_dec a i j hi hj hstep)
    · exact le_refl _

theorem sortPassInner_min (fuel : Nat) (a : Array TmBlock) (i j : Nat)
    (hf : a.size ≤ j + fuel) (hij : i < j) (hi : i < a.size) :
    ∀ k, j ≤ k → ∀ (hk : k < (sortPassInner fuel a i j).size)
      (hi2 : i < (sortPassInner fuel a i j).size),
      ((sortPassInner fuel a i j)[i]).height ≤ ((sortPassInner fuel a i j)[k]).height := by
  induction fuel generalizing a j with
  | zero =>
    intro k hjk hk hi2
    exact absurd hk (by simp only [sortPassInner]; omega)
  | succ f ih =>
    intro k hjk hk hi2
    simp only [sortPassInner] at hk hi2 ⊢
    split_ifs at hk hi2 ⊢ with hj
    · set step := (tmSwapStep a i j hi hj).val with hstepdef
      have hss : step.size = a.size := (tmSwapStep a i j hi hj).property
      have hf' : step.size ≤ (j + 1) + f := by omega
      have hij' : i < j + 1 := Nat.lt_succ_of_lt hij
      have histep : i < step.size := by omega
      rcases eq_or_lt_of_le hjk with hkj | hkj
      · -- k = j: untouched by the recursive call; value at i only decreased
        subst hkj
        have hkstep : j < step.size := by omega
        have hjk2 : j < (sortPassInner f step i (j + 1)).size := by
          rw [sortPassInner_size]; omega
        have hframe : (sortPassInner f step i (j + 1))[j] = step[j] :=
          sortPassInner_frame f step i (j + 1) j hjk2 hkstep (Nat.ne_of_gt hij)
            (Nat.lt_succ_self j)
        rw [hframe]
        exact le_trans (sortPassInner_dec f step i (j + 1) histep hi2)
          (tmSwapStep_le a i j hi hj histep hkstep)
      · exact ih step (j + 1) hf' hij' histep k hkj hk hi2
    · omega

theorem sortPassInner_source (fuel : Nat) (a : Array TmBlock) (i j : Nat) (hi : i < a.size) :
    ∀ k, (k = i ∨ j ≤ k) → ∀ (hk : k < (sortPassInner fuel a i j).size) (hk0 : k < a.size),
      ∃ m, ∃ (hm : m < a.size), (m = i ∨ j ≤ m) ∧ (sortPassInner fuel a i j)[k] = a[m] := by
  induction fuel generalizing a j with
  | zero =>
    intro k hreg hk hk0
    exact ⟨k, hk0, hreg, rfl⟩
  | succ f ih =>
    intro k hreg hk hk0
    simp only [sortPassInner] at hk ⊢
    split_ifs at hk ⊢ with hj
    · set step := (tmSwapStep a i j hi hj).val with hstepdef
      have hss : step.size = a.size := (tmSwapStep a i j hi hj).property
      have hkstep : k < step.size := by omega
      by_cases hreg' : k = i ∨ j + 1 ≤ k
      · obtain ⟨m, hm, hmreg, hmval⟩ := ih step (j + 1) (by omega) k hreg' hk (by omega)
        have hma : m < a.size := by omega
        rcases tmSwapStep_source a i j hi hj m hm hma with hsrc | hsrc | hsrc
        · exact ⟨i, hi, Or.inl rfl, by rw [hmval]; exact hsrc⟩
        · exact ⟨j, hj, Or.inr (le_refl j), by rw [hmval]; exact hsrc⟩
        · refine ⟨m, hma, ?_, by rw [hmval]; exact hsrc⟩
          rcases hmreg with h | h
          · exact Or.inl h
          · exact Or.inr (by omega)
      · -- k = j exactly (in region j but not region j+1, and not i)
        have hkj : k = j := by omega
        have hki : k ≠ i := by omega
        have hframe : (sortPassInner f step i (j + 1))[k] = step[k] :=
          sortPassInner_frame f step i (j + 1) k hk hkstep hki (by omega)
        rcases tmSwapStep_source a i j hi hj k hkstep hk0 with hsrc | hsrc | hsrc
        · exact ⟨i, hi, Or.inl rfl, by rw [hframe]; exact hsrc⟩
        · exact ⟨j, hj, Or.inr (le_refl j), by rw [hframe]; exact hsrc⟩
        · exact ⟨k, hk0, Or.inr (by omega), by rw [hframe]; exact hsrc⟩
    · exact ⟨k, hk0, hreg, rfl⟩

theorem sortBlocksAux_size (fuel : Nat) (a : Array TmBlock) (i : Nat) :
    (sortBlocksAux fuel a i).size = a.size := by
  induction fuel generalizing a i with
  | zero => rfl
  | succ f ih =>
    simp only [sortBlocksAux]
    split_ifs with hg
    · rw [ih, sortPassInner_size]
    · rfl

theorem sortBlocksAux_perm (fuel : Nat) (a : Array TmBlock) (i : Nat) :
    (sortBlocksAux fuel a i).toList.Perm a.toList := by
  induction fuel generalizing a i with
  | zero => exact List.Perm.refl _
  | succ f ih =>
    simp only [sortBlocksAux]
    split_ifs with hg
    · exact List.Perm.trans (ih _ _) (sortPassInner_perm _ a i (i + 1))
    · exact List.Perm.refl _

theorem sortBlocksAux_sorted (fuel : Nat) (a : Array TmBlock) (i : Nat)
    (hf : a.size ≤ i + 1 + fuel)
    (H1 : ∀ p q, p < q → q < i → ∀ (hp : p < a.size) (hq : q < a.size),
      (a[p]).height ≤ (a[q]).height)
    (H2 : ∀ p k, p < i → i ≤ k → ∀ (hp : p < a.size) (hk : k < a.size),
      (a[p]).height ≤ (a[k]).height) :
    ∀ p q, p < q → ∀ (hp : p < (sortBlocksAux fuel a i).size)
      (hq : q < (sortBlocksAux fuel a i).size),
      ((sortBlocksAux fuel a i)[p]).height ≤ ((sortBlocksAux fuel a i)[q]).height := by
  induction fuel generalizing a i with
  | zero =>
    intro p q hpq hp hq
    have hq0 : q < a.size := hq
    rcases Nat.lt_or_ge q i with hqi | hqi
    · exact H1 p q hpq hqi hp hq0
    · exact H2 p q (by omega) (by omega) hp hq0
  | succ f ih =>
    intro p q hpq hp hq
    simp only [sortBlocksAux] at hp hq ⊢
    split_ifs at hp hq ⊢ with hg
    · set a2 := sortPassInner (a.size - (i + 1)) a i (i + 1) with ha2
      have hii : i < a.size := by omega
      have ha2s : a2.size = a.size := sortPassInner_size _ a i (i + 1)
      have hfuel2 : a.size ≤ (i + 1) + (a.size - (i + 1)) := by omega
      -- frame: positions strictly below i are untouched by the pass
      have hfr : ∀ r, r < i → ∀ (hr : r < a.size) (hr2 : r < a2.size), a2[r] = a[r] := by
        intro r hr hra hra2
        exact sortPassInner_frame _ a i (i + 1) r hra2 hra (by omega) (by omega)
      -- the source of any slot in the region [i, size)
      have hsrc : ∀ k, i ≤ k → ∀ (hk : k < a2.size) (hk0 : k < a.size),
          ∃ m, ∃ (hm : m < a.size), i ≤ m ∧ a2[k] = a[m] := by
        intro k hik hk hk0
        have hreg : k = i ∨ i + 1 ≤ k := by omega
        obtain ⟨m, hm, hmreg, hmval⟩ := sortPassInner_source _ a i (i + 1) hii k hreg hk hk0
        exact ⟨m, hm, by omega, hmval⟩
      -- the pass puts the minimum of the suffix at position i
      have hmin : ∀ k, i + 1 ≤ k → ∀ (hk : k < a2.size) (hi2 : i < a2.size),
          (a2[i]).height ≤ (a2[k]).height := by
        intro k hik hk hi2
        exact sortPassInner_min _ a i (i + 1) hfuel2 (Nat.lt_succ_self i) hii k hik hk hi2
      have H1' : ∀ p q, p < q → q < i + 1 → ∀ (hp : p < a2.size) (hq : q < a2.size),
          (a2[p]).height ≤ (a2[q]).height := by
        intro p q hpq hqi hpa2 hqa2
        have hpa : p < a.size := by omega
        have hqa : q < a.size := by omega
        rcases Nat.lt_or_ge q i with hqlt | hqge
        · rw [hfr p (by omega) hpa hpa2, hfr q hqlt hqa hqa2]
          exact H1 p q hpq hqlt hpa hqa
        · have hqq : q = i := by omega
          subst hqq
          rw [hfr p (by omega) hpa hpa2]
          obtain ⟨m, hm, hmge, hmval⟩ := hsrc q (le_refl q) hqa2 hqa
          rw [hmval]
          exact H2 p m (by omega) hmge hpa hm
      have H2' : ∀ p k, p < i + 1 → i + 1 ≤ k → ∀ (hp : p < a2.size) (hk : k < a2.size),
          (a2[p]).height ≤ (a2[k]).height := by
        intro p k hpi hik hpa2 hka2
        have hpa : p < a.size := by omega
        have hka : k < a.size := by omega
        rcases Nat.lt_or_ge p i with hplt | hpge
        · rw [hfr p hplt hpa hpa2]
          obtain ⟨m, hm, hmge, hmval⟩ := hsrc k (by omega) hka2 hka
          rw [hmval]
          exact H2 p m hplt hmge hpa hm
        · have hpp : p = i := by omega
          subst hpp
          exact hmin k hik hka2 hpa2
      exact ih a2 (i + 1) (by omega) H1' H2' p q hpq hp hq
    · have hq0 : q < a.size := hq
      rcases Nat.lt_or_ge q i with hqi | hqi
      · exact H1 p q hpq hqi hp hq0
      · exact H2 p q (by omega) (by omega) hp hq0

theorem sortBlocks_sorted (l : List TmBlock) :
    ((sortBlocks l).map TmBlock.height).Pairwise (· ≤ ·) := by
  rw [List.pairwise_iff_getElem]
  intro p q hp hq hpq
  unfold sortBlocks at hp hq ⊢
  simp only [List.getElem_map, List.length_map] at hp hq ⊢
  have hp2 : p < (sortBlocksAux l.toArray.size l.toArray 0).size := by
    rw [← Array.length_toList]; exact hp
  have hq2 : q < (sortBlocksAux l.toArray.size l.toArray 0).size := by
    rw [← Array.length_toList]; exact hq
  rw [Array.getElem_toList hp2, Array.getElem_toList hq2]
  exact sortBlocksAux_sorted l.toArray.size l.toArray 0 (by omega)
    (fun p q _ hq0 _ _ => absurd hq0 (Nat.not_lt_zero q))
    (fun p k hp0 _ _ _ => absurd hp0 (Nat.not_lt_zero p))
    p q hpq hp2 hq2

theorem sortBlocks_perm (l : List TmBlock) : (sortBlocks l).Perm l := by
  unfold sortBlocks
  have h := sortBlocksAux_perm l.toArray.size l.toArray 0
  rwa [Array.toList_toArray] at h

theorem convertBlocksFrom_map_height (prev : TmBlock) (l : List TmBlock) :
    (convertBlocksFrom prev l).map BlockInfo.height = l.map TmBlock.height := by
  induction l generalizing prev with
  | nil => rfl
  | cons b rest ih => simp [convertBlocksFrom, ih]

theorem convertBlocks_map_height (l : List TmBlock) :
    (convertBlocks l).map BlockInfo.height = l.map TmBlock.height := by
  cases l with
  | nil => rfl
  | cons b rest => simp [convertBlocks, convertBlocksFrom_map_height]

/-- Claim C5: whenever the range fetch succeeds, the returned block sequence is
sorted ascending by height regardless of the completion order of the
per-height tasks, and its heights are exactly (as a multiset) the heights of
the successfully fetched blocks. -/
theorem getBlockRange_sorted_by_height (gb : Int → Except String TmBlock) (s e : Int)
    (order : List Int) (blocks : List BlockInfo)
    (h : GetBlockRange gb s e order = .ok blocks) :
    (blocks.map BlockInfo.height).Pairwise (· ≤ ·) ∧
    (blocks.map BlockInfo.height).Perm
      ((order.filterMap (fun hh => (gb hh).toOption)).map TmBlock.height) := by
  unfold GetBlockRange at h
  split_ifs at h with h1
  rcases hfe : firstFetchError gb order with _ | fe
  · rw [hfe] at h
    simp only [] at h
    have hblocks : blocks =
        convertBlocks (sortBlocks (order.filterMap (fun hh => (gb hh).toOption))) := by
      injection h with h2
      exact h2.symm
    subst hblocks
    rw [convertBlocks_map_height]
    constructor
    · exact sortBlocks_sorted _
    · exact List.Perm.map TmBlock.height (sortBlocks_perm _)
  · rw [hfe] at h
    simp only [] at h
    cases h

/-- Witness for C5: a three-height fetch whose tasks complete out of order
(2, 3, 1) still yields a height-ascending sequence. -/
theorem getBlockRange_sorted_by_height_witness :
    (GetBlockRange gbSeq 1 3 [2, 3, 1] =
      .ok [{ height := 1, time := (1:ℚ) * 6, blockTime := 0 },
           { height := 2, time := (2:ℚ) * 6, blockTime := (2:ℚ) * 6 - (1:ℚ) * 6 },
           { height := 3, time := (3:ℚ) * 6, blockTime := (3:ℚ) * 6 - (2:ℚ) * 6 }]) ∧
    (([{ height := 1, time := (1:ℚ) * 6, blockTime := 0 },
       { height := 2, time := (2:ℚ) * 6, blockTime := (2:ℚ) * 6 - (1:ℚ) * 6 },
       { height := 3, time := (3:ℚ) * 6, blockTime := (3:ℚ) * 6 - (2:ℚ) * 6 }].map
        BlockInfo.height).Pairwise (· ≤ ·) ∧
      ([{ height := 1, time := (1:ℚ) * 6, blockTime := 0 },
        { height := 2, time := (2:ℚ) * 6, blockTime := (2:ℚ) * 6 - (1:ℚ) * 6 },
        { height := 3, time := (3:ℚ) * 6, blockTime := (3:ℚ) * 6 - (2:ℚ) * 6 }].map
          BlockInfo.height).Perm
        (([2, 3, 1].filterMap (fun hh => (gbSeq hh).toOption)).map TmBlock.height)) :=
  ⟨rfl, getBlockRange_sorted_by_height gbSeq 1 3 [2, 3, 1] _ rfl⟩

/-- Claim C1: if the chain oracle fails for at least one height of the range,
then — whatever the completion order of the tasks — `GetBlockRange` returns an
error and no block sequence (the `Except` carries no partial results), and the
stats pipeline built on it returns an error as well, so no summary is ever
computed from the incomplete sample. -/
theorem getBlockRange_failFast (gb : Int → Except String TmBlock) (s e h0 : Int)
    (order : List Int) (msg : String) (cfg : CalculatorConfig)
    (hperm : order.Perm (heightRange s e)) (hmem : h0 ∈ heightRange s e)
    (herr : gb h0 = .error msg) :
    (∃ fe, GetBlockRange gb s e order = .error fe) ∧
    (∃ ce, CalculateStatsForRange cfg (fun a b => GetBlockRange gb a b order) s e =
      .error ce) := by
  have hse : ¬ s > e := by
    have hlen : 0 < (heightRange s e).length := List.length_pos.mpr (List.ne_nil_of_mem hmem)
    simp only [heightRange, List.length_map, List.length_range] at hlen
    omega
  have horder : h0 ∈ order := hperm.mem_iff.mpr hmem
  have hff : ∃ fe, firstFetchError gb order = some fe := by
    rcases hfe : firstFetchError gb order with _ | fe
    · exfalso
      unfold firstFetchError at hfe
      rw [List.head?_eq_none_iff] at hfe
      have h2 := List.filterMap_eq_nil.mp hfe h0 horder
      rw [herr] at h2
      simp at h2
    · exact ⟨fe, rfl⟩
  obtain ⟨fe, hfe⟩ := hff
  constructor
  · exact ⟨fe, by unfold GetBlockRange; rw [if_neg hse, hfe]⟩
  · unfold CalculateStatsForRange
    rw [if_neg hse]
    by_cases hss : e - s + 1 < cfg.minSampleSize
    · exact ⟨.insufficientSampleSize (e - s + 1) cfg.minSampleSize, by rw [if_pos hss]⟩
    · refine ⟨.fetchFailed fe, ?_⟩
      rw [if_neg hss]
      have hfetch : GetBlockRange gb s e order = .error fe := by
        unfold GetBlockRange
        rw [if_neg hse, hfe]
      simp only [hfetch]

/-- Witness for C1: heights 1..3 with the oracle failing at height 2 and
completion order (3, 1, 2). -/
theorem getBlockRange_failFast_witness :
    ([3, 1, 2] : List Int).Perm (heightRange 1 3) ∧ (2 : Int) ∈ heightRange 1 3 ∧
    ((∃ fe, GetBlockRange gbFail2 1 3 [3, 1, 2] = .error fe) ∧
      (∃ ce, CalculateStatsForRange DefaultConfig
        (fun a b => GetBlockRange gbFail2 a b [3, 1, 2]) 1 3 = .error ce)) :=
  ⟨by decide, by decide,
    getBlockRange_failFast gbFail2 1 3 2 [3, 1, 2] "connection refused" DefaultConfig
      (by decide) (by decide) rfl⟩
